import Mathlib

/-!
Shallow embedding of `src/main.rs` of the nba-power-rankings utility.

The program is a linear pipeline: fetch a power-rankings article and the
league schedule, resolve and sort ranking entries, build a per-team index
of upcoming games inside a half-open date window, and print a report.
This file embeds the pure data transformations of that pipeline:

* `resolveEntry` / `resolveRankings` / `sortRanked` — the filter_map and
  stable `sort_by_key` on ranking entries in `run` (main.rs lines 38-59);
* `parse_from_rfc3339` — the calendar-day result of
  `chrono::DateTime::parse_from_rfc3339` followed by `date_naive()`
  (the local date literally written in the RFC 3339 string);
* `processGame` / `rawUpcomingIndex` / `build_upcoming_games_index` —
  the schedule indexer (main.rs lines 172-219), with the `HashMap` of the
  source modelled as an association list keyed by team id;
* `format_team` — the opponent label formatter (main.rs lines 221-227);
* `extract_next_data` — the `__NEXT_DATA__` marker search
  (main.rs lines 153-170), modelled at character granularity (the marker
  is pure ASCII, so byte-level and character-level occurrence coincide).

Machine integers of the source (`u32`) are modelled as `Nat`: the program
only copies them and compares ranks, so no overflow is reachable.
-/

/-- Calendar date, the model of `chrono::NaiveDate`. -/
structure NaiveDate where
  year : Nat
  month : Nat
  day : Nat
deriving DecidableEq, Repr

/-- Chronological strict order on dates; for valid calendar dates this is
exactly the `Ord` instance of `chrono::NaiveDate` used by `<` and `>=`. -/
def NaiveDate.Before (a b : NaiveDate) : Prop :=
  a.year < b.year ∨
    (a.year = b.year ∧ (a.month < b.month ∨ (a.month = b.month ∧ a.day < b.day)))

instance instDecidableBefore (a b : NaiveDate) : Decidable (a.Before b) := by
  unfold NaiveDate.Before
  infer_instance

/-- Chronological non-strict order on dates. -/
def NaiveDate.Le (a b : NaiveDate) : Prop :=
  ¬ NaiveDate.Before b a

instance instDecidableDateLe (a b : NaiveDate) : Decidable (a.Le b) := by
  unfold NaiveDate.Le
  infer_instance

theorem NaiveDate.before_irrefl (a : NaiveDate) : ¬ a.Before a := by
  unfold NaiveDate.Before
  omega

theorem NaiveDate.le_total (a b : NaiveDate) : a.Le b ∨ b.Le a := by
  unfold NaiveDate.Le NaiveDate.Before
  omega

theorem NaiveDate.le_trans {a b c : NaiveDate} (h1 : a.Le b) (h2 : b.Le c) : a.Le c := by
  unfold NaiveDate.Le NaiveDate.Before at h1 h2 ⊢
  omega

/-- `homeTeam` / `awayTeam` record of the schedule feed (`ScheduleTeam`). -/
structure ScheduleTeam where
  team_id : Option Nat
  team_city : Option String
  team_name : Option String
deriving DecidableEq, Repr

/-- One game of the schedule feed (`Game`). -/
structure Game where
  game_date_utc : Option String
  home_team : ScheduleTeam
  away_team : ScheduleTeam
deriving DecidableEq, Repr

/-- One game-date block of the schedule feed (`GameDate`). -/
structure GameDate where
  games : List Game
deriving DecidableEq, Repr

/-- `LeagueSchedule` of the schedule feed. -/
structure LeagueSchedule where
  game_dates : List GameDate
deriving DecidableEq, Repr

/-- Top-level schedule feed value (`ScheduleResponse`). -/
structure ScheduleResponse where
  league_schedule : LeagueSchedule
deriving DecidableEq, Repr

/-- An entry of a team's upcoming-games bucket (`GameListing`). -/
structure GameListing where
  date : NaiveDate
  opponent : String
  is_home : Bool
deriving DecidableEq, Repr

/-- Raw ranking entry of the article payload (`PowerRankingEntry`). -/
structure PowerRankingEntry where
  team_id : Option Nat
  team_name : Option String
  team_nickname : Option String
  team_display_name : Option String
  current_week_rank : Option Nat
deriving DecidableEq, Repr

/-- Validated ranking (`ResolvedRanking`). -/
structure ResolvedRanking where
  rank : Nat
  team_id : Nat
  team_name : String
deriving DecidableEq, Repr

/-- Numeric value of a decimal digit character. -/
def digitVal (c : Char) : Nat :=
  c.toNat - '0'.toNat

/-- Value of a two-decimal-digit group. -/
def digits2 (a b : Char) : Nat :=
  10 * digitVal a + digitVal b

/-- Gregorian leap-year rule, as used by `chrono`. -/
def isLeapYear (y : Nat) : Bool :=
  (y % 4 == 0 && y % 100 != 0) || (y % 400 == 0)

/-- Number of days of month `m` of year `y`. -/
def daysInMonth (y m : Nat) : Nat :=
  if m = 2 then (if isLeapYear y then 29 else 28)
  else if m = 4 ∨ m = 6 ∨ m = 9 ∨ m = 11 then 30
  else 31

/-- A numeric RFC 3339 offset tail (`Z`, `z` or a signed `hh:mm` offset
accepted by `FixedOffset`). -/
def validOffset : List Char → Bool
  | ['Z'] => true
  | ['z'] => true
  | [sgn, h1, h2, ':', m1, m2] =>
    (sgn == '+' || sgn == '-') && h1.isDigit && h2.isDigit && m1.isDigit && m2.isDigit
      && decide (digits2 h1 h2 ≤ 23) && decide (digits2 m1 m2 ≤ 59)
  | _ => false

/-- After the decimal point of a fractional second: one or more digits
followed by a valid offset. -/
def fracRest : List Char → Bool
  | [] => false
  | c :: rest => c.isDigit && (fracRest rest || validOffset rest)

/-- The `hh:mm:ss` time, optional fractional second and offset of an
RFC 3339 timestamp (everything after the date and the separator). -/
def validTimeAndOffset : List Char → Bool
  | h1 :: h2 :: ':' :: m1 :: m2 :: ':' :: s1 :: s2 :: rest =>
    h1.isDigit && h2.isDigit && m1.isDigit && m2.isDigit && s1.isDigit && s2.isDigit
      && decide (digits2 h1 h2 ≤ 23) && decide (digits2 m1 m2 ≤ 59)
      && decide (digits2 s1 s2 ≤ 60)
      && (validOffset rest ||
          (match rest with
           | '.' :: fr => fracRest fr
           | _ => false))
  | _ => false

/-- Model of `chrono::DateTime::parse_from_rfc3339(s)` followed by
`.date_naive()` as used at main.rs lines 184-187: strict RFC 3339 parsing
(four-digit year, two-digit month/day, `T`/`t`/space separator, valid time
with optional fraction and a `Z`/`z`/signed offset), returning the calendar
day written in the string. `parse_from_rfc3339` keeps the given fixed
offset, so `date_naive` is the literal date field of the string; a `none`
result models a parse error. -/
def parse_from_rfc3339 (s : String) : Option NaiveDate :=
  match s.data with
  | y1 :: y2 :: y3 :: y4 :: '-' :: mo1 :: mo2 :: '-' :: d1 :: d2 :: sep :: rest =>
    if y1.isDigit && y2.isDigit && y3.isDigit && y4.isDigit
        && mo1.isDigit && mo2.isDigit && d1.isDigit && d2.isDigit
        && (sep == 'T' || sep == 't' || sep == ' ')
        && validTimeAndOffset rest then
      let y := 1000 * digitVal y1 + 100 * digitVal y2 + 10 * digitVal y3 + digitVal y4
      let m := digits2 mo1 mo2
      let d := digits2 d1 d2
      if 1 ≤ m ∧ m ≤ 12 ∧ 1 ≤ d ∧ d ≤ daysInMonth y m then some ⟨y, m, d⟩ else none
    else none
  | _ => none

/-- `format_team` (main.rs lines 221-227): the opponent label. The guarded
match arms of the source are encoded as nested conditionals. -/
def format_team (team : ScheduleTeam) : String :=
  match team.team_city, team.team_name with
  | some city, some name =>
    if city ≠ "" then city ++ " " ++ name
    else if name ≠ "" then name else "TBD Opponent"
  | _, some name => if name ≠ "" then name else "TBD Opponent"
  | _, _ => "TBD Opponent"

/-- The upcoming-games index: association list keyed by team id, the model
of the source's `HashMap<u32, Vec<GameListing>>` (claims never depend on
hash iteration order, only on per-key buckets). -/
abbrev GamesIndex := List (Nat × List GameListing)

/-- `index.entry(team_id).or_default().push(listing)`: append `listing` to
the bucket of `k`, creating a singleton bucket when `k` is absent. -/
def indexPush (idx : GamesIndex) (k : Nat) (listing : GameListing) : GamesIndex :=
  match idx with
  | [] => [(k, [listing])]
  | (k2, gs) :: rest =>
    if k2 = k then (k2, gs ++ [listing]) :: rest
    else (k2, gs) :: indexPush rest k listing

/-- `index.get(&k)` on the association list. -/
def indexFind (idx : GamesIndex) (k : Nat) : Option (List GameListing) :=
  match idx with
  | [] => none
  | (k2, gs) :: rest => if k2 = k then some gs else indexFind rest k

/-- The bucket of team `k` (empty when `k` is absent). -/
def bucket (idx : GamesIndex) (k : Nat) : List GameListing :=
  (indexFind idx k).getD []

/-- Non-strict chronological order on listings by their `date` field: the
key order of `games.sort_by_key(|game| game.date)` at main.rs line 215. -/
def dateLe (a b : GameListing) : Prop :=
  a.date.Le b.date

instance instDecidableDateLeListing : DecidableRel dateLe := fun a b => by
  unfold dateLe
  infer_instance

instance instIsTotalDateLe : IsTotal GameListing dateLe :=
  ⟨fun a b => NaiveDate.le_total a.date b.date⟩

instance instIsTransDateLe : IsTrans GameListing dateLe :=
  ⟨fun _ _ _ h1 h2 => NaiveDate.le_trans h1 h2⟩

/-- `games.sort_by_key(|game| game.date)`: Rust's `sort_by_key` is a stable
ascending sort by key, which insertion sort with the non-strict key order
realises extensionally. -/
def sortListings (l : List GameListing) : List GameListing :=
  List.insertionSort dateLe l

/-- The loop body of `build_upcoming_games_index` for one game
(main.rs lines 180-211): skip silently when the date string is absent,
fails to parse, or the day is outside the half-open window
`[s, e)`; otherwise append one listing per participating team whose id is
present. -/
def processGame (s e : NaiveDate) (idx : GamesIndex) (game : Game) : GamesIndex :=
  match game.game_date_utc with
  | none => idx
  | some date_str =>
    match parse_from_rfc3339 date_str with
    | none => idx
    | some game_day =>
      if game_day.Before s ∨ ¬ game_day.Before e then idx
      else
        let opponent_for_home := format_team game.away_team
        let opponent_for_away := format_team game.home_team
        let idx1 :=
          match game.home_team.team_id with
          | some team_id => indexPush idx team_id ⟨game_day, opponent_for_home, true⟩
          | none => idx
        match game.away_team.team_id with
        | some team_id => indexPush idx1 team_id ⟨game_day, opponent_for_away, false⟩
        | none => idx1

/-- The index after the two nested loops of `build_upcoming_games_index`,
before the per-bucket sort: buckets hold listings in feed insertion order. -/
def rawUpcomingIndex (schedule : ScheduleResponse) (s e : NaiveDate) : GamesIndex :=
  schedule.league_schedule.game_dates.foldl
    (fun idx game_date => game_date.games.foldl (processGame s e) idx) []

/-- Sort every bucket of the index by date
(main.rs lines 214-216). -/
def sortBuckets (idx : GamesIndex) : GamesIndex :=
  idx.map (fun p => (p.1, sortListings p.2))

/-- `build_upcoming_games_index` (main.rs lines 172-219). -/
def build_upcoming_games_index (schedule : ScheduleResponse) (s e : NaiveDate) : GamesIndex :=
  sortBuckets (rawUpcomingIndex schedule s e)

/-- The closure of `rankings.into_iter().filter_map(...)` in `run`
(main.rs lines 40-52): keep an entry only when rank, team id and one of the
three name fields are present, with name precedence
name / nickname / display name. -/
def resolveEntry (entry : PowerRankingEntry) : Option ResolvedRanking :=
  match entry.current_week_rank with
  | none => none
  | some rank =>
    match entry.team_id with
    | none => none
    | some team_id =>
      match (entry.team_name.or entry.team_nickname).or entry.team_display_name with
      | none => none
      | some team_name => some ⟨rank, team_id, team_name⟩

/-- The resolved (surviving) rankings of `run`, in article order. -/
def resolveRankings (entries : List PowerRankingEntry) : List ResolvedRanking :=
  entries.filterMap resolveEntry

/-- Non-strict order on resolved rankings by `rank`: the key order of
`ranked.sort_by_key(|r| r.rank)` at main.rs line 59. -/
def rankLe (a b : ResolvedRanking) : Prop :=
  a.rank ≤ b.rank

instance instDecidableRankLe : DecidableRel rankLe := fun a b =>
  Nat.decLe a.rank b.rank

instance instIsTotalRankLe : IsTotal ResolvedRanking rankLe :=
  ⟨fun a b => Nat.le_total a.rank b.rank⟩

instance instIsTransRankLe : IsTrans ResolvedRanking rankLe :=
  ⟨fun _ _ _ h1 h2 => Nat.le_trans h1 h2⟩

/-- `ranked.sort_by_key(|r| r.rank)`: Rust's `sort_by_key` is a stable
ascending sort by key, realised extensionally by insertion sort with the
non-strict key order. -/
def sortRanked (l : List ResolvedRanking) : List ResolvedRanking :=
  List.insertionSort rankLe l

/-- The extraction errors of `extract_next_data`; both are the
`MarkerNotFoundError` of the specification, distinguished by the context
message attached in the source. -/
inductive ExtractError where
  | markerNotFound (context : String)
deriving DecidableEq, Repr

/-- The literal `__NEXT_DATA__` script-tag marker searched for by
`extract_next_data` (main.rs line 157). -/
def NEXT_DATA_MARKER : List Char :=
  "<script id=\"__NEXT_DATA__\" type=\"application/json\">".data

/-- The closing tag searched for after the marker (main.rs line 164). -/
def SCRIPT_CLOSE : List Char :=
  "</script>".data

/-- `needle` is a prefix of `hay`. -/
def startsWithChars : List Char → List Char → Bool
  | [], _ => true
  | _ :: _, [] => false
  | a :: as, b :: bs => a == b && startsWithChars as bs

/-- `hay.find(needle)` of Rust `str`: index of the first occurrence, at
character granularity (the needles used are ASCII, so this coincides with
the byte index semantics of the source). -/
def findSub (needle : List Char) : List Char → Option Nat
  | [] => if startsWithChars needle [] then some 0 else none
  | c :: rest =>
    if startsWithChars needle (c :: rest) then some 0
    else (findSub needle rest).map (· + 1)

/-- `extract_next_data` (main.rs lines 153-170) up to the extracted JSON
substring: find the marker, then the next `</script>`; each missing marker
is a distinct contextualised error. The subsequent `serde_json` parse of
the returned substring is outside this model. -/
def extract_next_data (body : String) : Except ExtractError String :=
  match findSub NEXT_DATA_MARKER body.data with
  | none => .error (.markerNotFound "unable to locate __NEXT_DATA__ script tag")
  | some start =>
    let remainder := body.data.drop (start + NEXT_DATA_MARKER.length)
    match findSub SCRIPT_CLOSE remainder with
    | none => .error (.markerNotFound "unable to locate end of __NEXT_DATA__ script tag")
    | some stop => .ok ⟨remainder.take stop⟩

/-! ### Helper lemmas -/

theorem filter_orderedInsert_pos {α : Type} (r : α → α → Prop) [DecidableRel r]
    (p : α → Bool) (a : α) (l : List α)
    (h1 : ∀ b, p b = true → r a b) (ha : p a = true) :
    (l.orderedInsert r a).filter p = a :: l.filter p := by
  induction l with
  | nil => simp [List.orderedInsert, ha]
  | cons b t ih =>
    by_cases hr : r a b
    · rw [List.orderedInsert, if_pos hr]
      simp [List.filter_cons, ha]
    · have hpb : p b = false := by
        cases hpb : p b
        · rfl
        · exact absurd (h1 b hpb) hr
      rw [List.orderedInsert, if_neg hr]
      simp [List.filter_cons, hpb, ih]

theorem filter_orderedInsert_neg {α : Type} (r : α → α → Prop) [DecidableRel r]
    (p : α → Bool) (a : α) (l : List α) (ha : p a = false) :
    (l.orderedInsert r a).filter p = l.filter p := by
  induction l with
  | nil => simp [List.orderedInsert, ha]
  | cons b t ih =>
    by_cases hr : r a b
    · rw [List.orderedInsert, if_pos hr]
      simp [List.filter_cons, ha]
    · rw [List.orderedInsert, if_neg hr]
      simp [List.filter_cons, ih]

theorem filter_insertionSort_key {α : Type} (r : α → α → Prop) [DecidableRel r]
    (p : α → Bool) (h1 : ∀ a b, p a = true → p b = true → r a b) :
    ∀ l : List α, (List.insertionSort r l).filter p = l.filter p := by
  intro l
  induction l with
  | nil => rfl
  | cons x t ih =>
    rw [List.insertionSort]
    cases hx : p x
    · rw [filter_orderedInsert_neg r p x _ hx, ih]
      simp [List.filter_cons, hx]
    · rw [filter_orderedInsert_pos r p x _ (fun b hb => h1 x b hx hb) hx, ih]
      simp [List.filter_cons, hx]

theorem bucket_indexPush_self (idx : GamesIndex) (k : Nat) (g : GameListing) :
    bucket (indexPush idx k g) k = bucket idx k ++ [g] := by
  induction idx with
  | nil => simp [indexPush, bucket, indexFind]
  | cons p rest ih =>
    obtain ⟨k2, gs⟩ := p
    by_cases hk : k2 = k
    · subst hk
      simp [indexPush, bucket, indexFind]
    · simp [indexPush, bucket, indexFind, hk]
      exact ih

theorem bucket_indexPush_ne (idx : GamesIndex) (k t : Nat) (g : GameListing)
    (h : k ≠ t) : bucket (indexPush idx k g) t = bucket idx t := by
  induction idx with
  | nil => simp [indexPush, bucket, indexFind, h]
  | cons p rest ih =>
    obtain ⟨k2, gs⟩ := p
    by_cases hk : k2 = k
    · subst hk
      simp [indexPush, bucket, indexFind, h]
    · by_cases ht : k2 = t
      · subst ht
        simp [indexPush, bucket, indexFind, hk]
      · simp [indexPush, bucket, indexFind, hk, ht]
        exact ih

/-- Total number of listings stored in the index. -/
def totalListings (idx : GamesIndex) : Nat :=
  (idx.map (fun p => p.2.length)).sum

theorem totalListings_indexPush (idx : GamesIndex) (k : Nat) (g : GameListing) :
    totalListings (indexPush idx k g) = totalListings idx + 1 := by
  induction idx with
  | nil => simp [indexPush, totalListings]
  | cons p rest ih =>
    obtain ⟨k2, gs⟩ := p
    by_cases hk : k2 = k
    · subst hk
      simp [indexPush, totalListings]
      omega
    · simp [indexPush, totalListings, hk] at ih ⊢
      omega

theorem indexFind_sortBuckets (idx : GamesIndex) (k : Nat) :
    indexFind (sortBuckets idx) k = (indexFind idx k).map sortListings := by
  induction idx with
  | nil => simp [sortBuckets, indexFind]
  | cons p rest ih =>
    obtain ⟨k2, gs⟩ := p
    by_cases hk : k2 = k
    · subst hk
      simp [sortBuckets, indexFind]
    · simp [sortBuckets, indexFind, hk] at ih ⊢
      exact ih

theorem bucket_sortBuckets (idx : GamesIndex) (k : Nat) :
    bucket (sortBuckets idx) k = sortListings (bucket idx k) := by
  unfold bucket
  rw [indexFind_sortBuckets]
  cases indexFind idx k with
  | none => rfl
  | some gs => rfl

theorem startsWithChars_exists :
    ∀ (needle hay : List Char), startsWithChars needle hay = true →
      ∃ rest, hay = needle ++ rest := by
  intro needle
  induction needle with
  | nil => exact fun hay _ => ⟨hay, rfl⟩
  | cons a as ih =>
    intro hay h
    cases hay with
    | nil => simp [startsWithChars] at h
    | cons b bs =>
      simp only [startsWithChars, Bool.and_eq_true, beq_iff_eq] at h
      obtain ⟨rfl, h2⟩ := h
      obtain ⟨rest, hrest⟩ := ih bs h2
      exact ⟨rest, by simp [hrest]⟩

theorem exists_of_findSub_eq_some (needle : List Char) :
    ∀ (hay : List Char) (i : Nat), findSub needle hay = some i →
      ∃ p q, hay = p ++ needle ++ q := by
  intro hay
  induction hay with
  | nil =>
    intro i h
    unfold findSub at h
    by_cases hs : startsWithChars needle [] = true
    · obtain ⟨rest, hrest⟩ := startsWithChars_exists needle [] hs
      exact ⟨[], rest, by simpa using hrest⟩
    · simp [hs] at h
  | cons c rest ih =>
    intro i h
    unfold findSub at h
    by_cases hs : startsWithChars needle (c :: rest) = true
    · obtain ⟨tail, htail⟩ := startsWithChars_exists needle (c :: rest) hs
      exact ⟨[], tail, by simpa using htail⟩
    · simp only [hs, if_false] at h
      cases hf : findSub needle rest with
      | none => rw [hf] at h; simp at h
      | some j =>
        obtain ⟨p, q, hpq⟩ := ih j hf
        exact ⟨c :: p, q, by simp [hpq]⟩

/-- Every bucket stored in the index is non-empty. -/
def bucketsNonempty (idx : GamesIndex) : Prop :=
  ∀ p ∈ idx, p.2 ≠ []

theorem bucketsNonempty_indexPush {idx : GamesIndex} (k : Nat) (g : GameListing)
    (h : bucketsNonempty idx) : bucketsNonempty (indexPush idx k g) := by
  induction idx with
  | nil =>
    intro p hp
    simp [indexPush] at hp
    subst hp
    simp
  | cons q rest ih =>
    obtain ⟨k2, gs⟩ := q
    by_cases hk : k2 = k
    · subst hk
      intro p hp
      simp [indexPush] at hp
      rcases hp with rfl | hp
      · simp
      · exact h p (List.mem_cons_of_mem _ hp)
    · intro p hp
      simp [indexPush, hk] at hp
      rcases hp with rfl | hp
      · exact h (k2, gs) (List.mem_cons_self _ _)
      · exact ih (fun r hr => h r (List.mem_cons_of_mem _ hr)) p hp

theorem bucketsNonempty_processGame (s e : NaiveDate) (idx : GamesIndex) (game : Game)
    (h : bucketsNonempty idx) : bucketsNonempty (processGame s e idx game) := by
  cases hd : game.game_date_utc with
  | none => simpa [processGame, hd] using h
  | some ds =>
    cases hp : parse_from_rfc3339 ds with
    | none => simpa [processGame, hd, hp] using h
    | some day =>
      by_cases hw : day.Before s ∨ ¬ day.Before e
      · simpa [processGame, hd, hp, hw] using h
      · cases hh : game.home_team.team_id with
        | none =>
          cases ha : game.away_team.team_id with
          | none => simpa [processGame, hd, hp, hw, hh, ha] using h
          | some u =>
            have hu := bucketsNonempty_indexPush u
              ⟨day, format_team game.home_team, false⟩ h
            simpa [processGame, hd, hp, hw, hh, ha] using hu
        | some t =>
          cases ha : game.away_team.team_id with
          | none =>
            have ht := bucketsNonempty_indexPush t
              ⟨day, format_team game.away_team, true⟩ h
            simpa [processGame, hd, hp, hw, hh, ha] using ht
          | some u =>
            have htu := bucketsNonempty_indexPush u
              ⟨day, format_team game.home_team, false⟩
              (bucketsNonempty_indexPush t ⟨day, format_team game.away_team, true⟩ h)
            simpa [processGame, hd, hp, hw, hh, ha] using htu

theorem bucketsNonempty_foldl {β : Type} (f : GamesIndex → β → GamesIndex)
    (hf : ∀ idx b, bucketsNonempty idx → bucketsNonempty (f idx b)) :
    ∀ (l : List β) (idx : GamesIndex),
      bucketsNonempty idx → bucketsNonempty (l.foldl f idx) := by
  intro l
  induction l with
  | nil => exact fun idx h => h
  | cons b t ih => exact fun idx h => ih (f idx b) (hf idx b h)

theorem bucketsNonempty_rawUpcomingIndex (schedule : ScheduleResponse) (s e : NaiveDate) :
    bucketsNonempty (rawUpcomingIndex schedule s e) := by
  unfold rawUpcomingIndex
  refine bucketsNonempty_foldl _ ?_ _ [] ?_
  · intro idx gd hidx
    exact bucketsNonempty_foldl _ (fun i g hi => bucketsNonempty_processGame s e i g hi)
      gd.games idx hidx
  · intro p hp
    simp at hp

/-- The date gate of the schedule indexer (main.rs lines 181-191): the
game's UTC date-time string is present, parses under strict RFC 3339
parsing, and its calendar day lies in the half-open window `[s, e)`. -/
def gameInWindow (s e : NaiveDate) (game : Game) : Prop :=
  ∃ ds day, game.game_date_utc = some ds ∧ parse_from_rfc3339 ds = some day ∧
    ¬ day.Before s ∧ day.Before e

/-- Fixed window used by the concrete instances below. -/
def winS : NaiveDate := ⟨2024, 1, 10⟩

/-- Fixed window end used by the concrete instances below. -/
def winE : NaiveDate := ⟨2024, 1, 17⟩

/-- A game inside the window whose two teams both lack a team id. -/
def gameNoIds : Game :=
  ⟨some "2024-01-16T23:30:00Z",
    ⟨none, some "City1", some "Team1"⟩,
    ⟨none, some "City2", some "Team2"⟩⟩

/-! ### Claim theorems -/

/-- **C1** (amended). For every window and every game, the per-game loop
body of `build_upcoming_games_index` changes the index — i.e. produces
listings for that game — if and only if the game's UTC date-time string is
present, parses under strict RFC 3339 parsing, its calendar day lies in
the half-open window, and at least one of the two participating teams has
a present team id; a game with an absent or unparseable date-time string
is skipped silently (the index is returned unchanged, and the function is
total, so no error is possible). The second conjunct states the same gate
through `build_upcoming_games_index` itself on a one-game schedule. -/
theorem processGame_changes_index_iff (s e : NaiveDate) (game : Game) :
    (∀ idx : GamesIndex, processGame s e idx game ≠ idx ↔
      (gameInWindow s e game ∧
        (game.home_team.team_id.isSome = true ∨ game.away_team.team_id.isSome = true))) ∧
    (build_upcoming_games_index ⟨⟨[⟨[game]⟩]⟩⟩ s e ≠ [] ↔
      (gameInWindow s e game ∧
        (game.home_team.team_id.isSome = true ∨ game.away_team.team_id.isSome = true))) := by
  have key : ∀ idx : GamesIndex, processGame s e idx game ≠ idx ↔
      (gameInWindow s e game ∧
        (game.home_team.team_id.isSome = true ∨ game.away_team.team_id.isSome = true)) := by
    intro idx
    cases hd : game.game_date_utc with
    | none =>
      have heq : processGame s e idx game = idx := by simp [processGame, hd]
      constructor
      · intro hne
        exact absurd heq hne
      · rintro ⟨⟨ds, day, hd2, _⟩, _⟩
        rw [hd] at hd2
        cases hd2
    | some ds =>
      cases hp : parse_from_rfc3339 ds with
      | none =>
        have heq : processGame s e idx game = idx := by simp [processGame, hd, hp]
        constructor
        · intro hne
          exact absurd heq hne
        · rintro ⟨⟨ds2, day, hd2, hp2, _⟩, _⟩
          rw [hd] at hd2
          cases hd2
          rw [hp] at hp2
          cases hp2
      | some day =>
        by_cases hw : day.Before s ∨ ¬ day.Before e
        · have heq : processGame s e idx game = idx := by simp [processGame, hd, hp, hw]
          constructor
          · intro hne
            exact absurd heq hne
          · rintro ⟨⟨ds2, day2, hd2, hp2, h1, h2⟩, _⟩
            rw [hd] at hd2
            cases hd2
            rw [hp] at hp2
            cases hp2
            rcases hw with hw | hw
            · exact absurd hw h1
            · exact absurd h2 hw
        · have hw1 : ¬ day.Before s := fun hc => hw (Or.inl hc)
          have hw2 : day.Before e := by
            by_contra hc
            exact hw (Or.inr hc)
          cases hh : game.home_team.team_id with
          | none =>
            cases ha : game.away_team.team_id with
            | none =>
              have heq : processGame s e idx game = idx := by
                simp [processGame, hd, hp, hw, hh, ha]
              constructor
              · intro hne
                exact absurd heq hne
              · rintro ⟨_, hsome | hsome⟩
                · simp at hsome
                · simp at hsome
            | some u =>
              have heq : processGame s e idx game =
                  indexPush idx u ⟨day, format_team game.home_team, false⟩ := by
                simp [processGame, hd, hp, hw, hh, ha]
              have hcount : totalListings (processGame s e idx game) =
                  totalListings idx + 1 := by
                rw [heq, totalListings_indexPush]
              refine ⟨fun _ => ⟨⟨ds, day, hd, hp, hw1, hw2⟩, Or.inr rfl⟩,
                fun _ hceq => ?_⟩
              rw [hceq] at hcount
              omega
          | some t =>
            cases ha : game.away_team.team_id with
            | none =>
              have heq : processGame s e idx game =
                  indexPush idx t ⟨day, format_team game.away_team, true⟩ := by
                simp [processGame, hd, hp, hw, hh, ha]
              have hcount : totalListings (processGame s e idx game) =
                  totalListings idx + 1 := by
                rw [heq, totalListings_indexPush]
              refine ⟨fun _ => ⟨⟨ds, day, hd, hp, hw1, hw2⟩, Or.inl rfl⟩,
                fun _ hceq => ?_⟩
              rw [hceq] at hcount
              omega
            | some u =>
              have heq : processGame s e idx game =
                  indexPush (indexPush idx t ⟨day, format_team game.away_team, true⟩)
                    u ⟨day, format_team game.home_team, false⟩ := by
                simp [processGame, hd, hp, hw, hh, ha]
              have hcount : totalListings (processGame s e idx game) =
                  totalListings idx + 2 := by
                rw [heq, totalListings_indexPush, totalListings_indexPush]
              refine ⟨fun _ => ⟨⟨ds, day, hd, hp, hw1, hw2⟩, Or.inl rfl⟩,
                fun _ hceq => ?_⟩
              rw [hceq] at hcount
              omega
  refine ⟨key, ?_⟩
  have hb : build_upcoming_games_index ⟨⟨[⟨[game]⟩]⟩⟩ s e =
      sortBuckets (processGame s e [] game) := rfl
  rw [hb]
  constructor
  · intro hne
    refine (key []).mp ?_
    intro h0
    apply hne
    rw [h0]
    rfl
  · intro hc hnil
    have hpg : processGame s e [] game = [] := by
      have := List.map_eq_nil_iff.mp hnil
      exact this
    exact (key []).mpr hc hpg

/-- **C1 counterexample.** The claim's equivalence fails as stated: for a
one-game schedule whose game has a valid date inside the window but whose
two teams both lack a team id, the date conditions hold and yet the index
built by `build_upcoming_games_index` contains no listings at all. -/
theorem date_gate_alone_fails_without_team_ids :
    ¬ ((∃ p, p ∈ build_upcoming_games_index ⟨⟨[⟨[gameNoIds]⟩]⟩⟩ winS winE) ↔
        gameInWindow winS winE gameNoIds) := by
  intro hiff
  have hwin : gameInWindow winS winE gameNoIds :=
    ⟨"2024-01-16T23:30:00Z", ⟨2024, 1, 16⟩, rfl, by decide, by decide, by decide⟩
  obtain ⟨p, hp⟩ := hiff.mpr hwin
  have hb : build_upcoming_games_index ⟨⟨[⟨[gameNoIds]⟩]⟩⟩ winS winE = [] := by decide
  rw [hb] at hp
  exact List.not_mem_nil p hp

/-- A game inside the window with both team ids present. -/
def gameBothIds : Game :=
  ⟨some "2024-01-16T23:30:00Z",
    ⟨some 1, some "City1", some "Team1"⟩,
    ⟨some 2, some "City2", some "Team2"⟩⟩

/-- **C2.** For every game whose date string parses to a day inside the
half-open window, the loop body of `build_upcoming_games_index` appends
exactly one `GameListing` to the bucket of each participating team whose
team id is present: the home team's bucket gains a listing with
`is_home = true` and opponent `format_team` of the away team, the away
team's bucket gains one with `is_home = false` and opponent `format_team`
of the home team, and every other bucket is unchanged. -/
theorem processGame_appends_listing_per_team (s e : NaiveDate) (idx : GamesIndex)
    (game : Game) (ds : String) (day : NaiveDate)
    (hd : game.game_date_utc = some ds) (hp : parse_from_rfc3339 ds = some day)
    (h1 : ¬ day.Before s) (h2 : day.Before e) :
    (∀ t, game.home_team.team_id = some t → game.away_team.team_id ≠ some t →
      bucket (processGame s e idx game) t =
        bucket idx t ++ [⟨day, format_team game.away_team, true⟩]) ∧
    (∀ t, game.away_team.team_id = some t → game.home_team.team_id ≠ some t →
      bucket (processGame s e idx game) t =
        bucket idx t ++ [⟨day, format_team game.home_team, false⟩]) ∧
    (∀ t, game.home_team.team_id ≠ some t → game.away_team.team_id ≠ some t →
      bucket (processGame s e idx game) t = bucket idx t) := by
  have hw : ¬ (day.Before s ∨ ¬ day.Before e) := by
    rintro (hc | hc)
    · exact h1 hc
    · exact hc h2
  refine ⟨?_, ?_, ?_⟩
  · intro t ht hna
    cases ha : game.away_team.team_id with
    | none =>
      have heq : processGame s e idx game =
          indexPush idx t ⟨day, format_team game.away_team, true⟩ := by
        simp [processGame, hd, hp, hw, ht, ha]
      rw [heq, bucket_indexPush_self]
    | some u =>
      have hut : u ≠ t := by
        intro hc
        exact hna (hc ▸ ha)
      have heq : processGame s e idx game =
          indexPush (indexPush idx t ⟨day, format_team game.away_team, true⟩)
            u ⟨day, format_team game.home_team, false⟩ := by
        simp [processGame, hd, hp, hw, ht, ha]
      rw [heq, bucket_indexPush_ne _ _ _ _ hut, bucket_indexPush_self]
  · intro t ht hnh
    cases hh : game.home_team.team_id with
    | none =>
      have heq : processGame s e idx game =
          indexPush idx t ⟨day, format_team game.home_team, false⟩ := by
        simp [processGame, hd, hp, hw, ht, hh]
      rw [heq, bucket_indexPush_self]
    | some u =>
      have hut : u ≠ t := by
        intro hc
        exact hnh (hc ▸ hh)
      have heq : processGame s e idx game =
          indexPush (indexPush idx u ⟨day, format_team game.away_team, true⟩)
            t ⟨day, format_team game.home_team, false⟩ := by
        simp [processGame, hd, hp, hw, ht, hh]
      rw [heq, bucket_indexPush_self, bucket_indexPush_ne _ _ _ _ hut]
  · intro t hnh hna
    cases hh : game.home_team.team_id with
    | none =>
      cases ha : game.away_team.team_id with
      | none =>
        have heq : processGame s e idx game = idx := by
          simp [processGame, hd, hp, hw, hh, ha]
        rw [heq]
      | some u =>
        have hut : u ≠ t := by
          intro hc
          exact hna (hc ▸ ha)
        have heq : processGame s e idx game =
            indexPush idx u ⟨day, format_team game.home_team, false⟩ := by
          simp [processGame, hd, hp, hw, hh, ha]
        rw [heq, bucket_indexPush_ne _ _ _ _ hut]
    | some v =>
      have hvt : v ≠ t := by
        intro hc
        exact hnh (hc ▸ hh)
      cases ha : game.away_team.team_id with
      | none =>
        have heq : processGame s e idx game =
            indexPush idx v ⟨day, format_team game.away_team, true⟩ := by
          simp [processGame, hd, hp, hw, hh, ha]
        rw [heq, bucket_indexPush_ne _ _ _ _ hvt]
      | some u =>
        have hut : u ≠ t := by
          intro hc
          exact hna (hc ▸ ha)
        have heq : processGame s e idx game =
            indexPush (indexPush idx v ⟨day, format_team game.away_team, true⟩)
              u ⟨day, format_team game.home_team, false⟩ := by
          simp [processGame, hd, hp, hw, hh, ha]
        rw [heq, bucket_indexPush_ne _ _ _ _ hut, bucket_indexPush_ne _ _ _ _ hvt]

/-- **C2 witness.** Concrete instance: the in-window game with home id 1
and away id 2 puts one home listing in bucket 1 and one away listing in
bucket 2. -/
theorem processGame_appends_listing_per_team_witness :
    bucket (processGame winS winE [] gameBothIds) 1 =
        [⟨⟨2024, 1, 16⟩, "City2 Team2", true⟩] ∧
    bucket (processGame winS winE [] gameBothIds) 2 =
        [⟨⟨2024, 1, 16⟩, "City1 Team1", false⟩] := by
  have h := processGame_appends_listing_per_team winS winE [] gameBothIds
    "2024-01-16T23:30:00Z" ⟨2024, 1, 16⟩ rfl (by decide) (by decide) (by decide)
  refine ⟨?_, ?_⟩
  · have h1 := h.1 1 rfl (by decide)
    simpa using h1
  · have h2 := h.2.1 2 rfl (by decide)
    simpa using h2

theorem bucket_length_indexPush (idx : GamesIndex) (k t : Nat) (g : GameListing) :
    (bucket (indexPush idx k g) t).length =
      (bucket idx t).length + (if k = t then 1 else 0) := by
  by_cases hkt : k = t
  · subst hkt
    rw [bucket_indexPush_self]
    simp
  · rw [bucket_indexPush_ne _ _ _ _ hkt]
    simp [hkt]

/-- **C9** (amended). For every game whose date is valid and inside the
window, the loop body of `build_upcoming_games_index` produces exactly one
`GameListing` per participating team whose team id is present, each
attached to that team's id: for every key `t`, the bucket of `t` grows by
exactly the number of participations of team `t` with a present id (one
for home, one for away, zero for non-participants), and in total exactly
one listing is produced per present-id participant — so exactly two when
both team ids are present. -/
theorem processGame_listing_count (s e : NaiveDate) (idx : GamesIndex)
    (game : Game) (ds : String) (day : NaiveDate)
    (hd : game.game_date_utc = some ds) (hp : parse_from_rfc3339 ds = some day)
    (h1 : ¬ day.Before s) (h2 : day.Before e) :
    (∀ t : Nat, (bucket (processGame s e idx game) t).length =
      (bucket idx t).length
        + (if game.home_team.team_id = some t then 1 else 0)
        + (if game.away_team.team_id = some t then 1 else 0)) ∧
    totalListings (processGame s e idx game) =
      totalListings idx + (if game.home_team.team_id.isSome then 1 else 0)
        + (if game.away_team.team_id.isSome then 1 else 0) := by
  have hw : ¬ (day.Before s ∨ ¬ day.Before e) := by
    rintro (hc | hc)
    · exact h1 hc
    · exact hc h2
  cases hh : game.home_team.team_id with
  | none =>
    cases ha : game.away_team.team_id with
    | none =>
      have heq : processGame s e idx game = idx := by
        simp [processGame, hd, hp, hw, hh, ha]
      exact ⟨fun t => by simp [heq, hh, ha], by simp [heq, hh, ha]⟩
    | some u =>
      have heq : processGame s e idx game =
          indexPush idx u ⟨day, format_team game.home_team, false⟩ := by
        simp [processGame, hd, hp, hw, hh, ha]
      refine ⟨fun t => ?_, by simp [heq, totalListings_indexPush, hh, ha]⟩
      rw [heq, bucket_length_indexPush]
      simp [hh, ha]
  | some v =>
    cases ha : game.away_team.team_id with
    | none =>
      have heq : processGame s e idx game =
          indexPush idx v ⟨day, format_team game.away_team, true⟩ := by
        simp [processGame, hd, hp, hw, hh, ha]
      refine ⟨fun t => ?_, by simp [heq, totalListings_indexPush, hh, ha]⟩
      rw [heq, bucket_length_indexPush]
      simp [hh, ha]
    | some u =>
      have heq : processGame s e idx game =
          indexPush (indexPush idx v ⟨day, format_team game.away_team, true⟩)
            u ⟨day, format_team game.home_team, false⟩ := by
        simp [processGame, hd, hp, hw, hh, ha]
      refine ⟨fun t => ?_, by simp [heq, totalListings_indexPush, hh, ha]⟩
      rw [heq, bucket_length_indexPush, bucket_length_indexPush]
      simp [hh, ha]

/-- **C9 witness.** Both team ids present: the in-window game puts exactly
one listing in the home team's bucket 1, exactly one in the away team's
bucket 2, and exactly two in total, starting from the empty index. -/
theorem processGame_listing_count_witness :
    (bucket (processGame winS winE [] gameBothIds) 1).length = 1 ∧
    (bucket (processGame winS winE [] gameBothIds) 2).length = 1 ∧
    totalListings (processGame winS winE [] gameBothIds) = 2 := by
  have h := processGame_listing_count winS winE [] gameBothIds
    "2024-01-16T23:30:00Z" ⟨2024, 1, 16⟩ rfl (by decide) (by decide) (by decide)
  exact ⟨(h.1 1).trans rfl, (h.1 2).trans rfl, h.2.trans rfl⟩

/-- A game inside the window whose away team lacks a team id. -/
def gameOneId : Game :=
  ⟨some "2024-01-12T19:00:00Z",
    ⟨some 5, none, none⟩,
    ⟨none, some "Boston", some "Celtics"⟩⟩

/-- **C9 counterexample.** The claim's "exactly two listings per valid
in-window game" fails as stated: a game with a valid date inside the
window whose away team id is absent yields exactly one listing, not two. -/
theorem two_listings_fails_with_missing_id :
    gameInWindow winS winE gameOneId ∧
      totalListings (build_upcoming_games_index ⟨⟨[⟨[gameOneId]⟩]⟩⟩ winS winE) = 1 := by
  refine ⟨⟨"2024-01-12T19:00:00Z", ⟨2024, 1, 12⟩, rfl, by decide, by decide, by decide⟩, ?_⟩
  decide

/-- **C10.** Every team-id key present in the map returned by
`build_upcoming_games_index` has a non-empty list of listings: a bucket is
created only by appending a listing to it, and the final per-bucket sort
preserves length. Consequently the report printer's branch in `run`
(main.rs lines 67-68) that prints "No games scheduled in the next 7 days."
for an existing-but-empty entry can never fire on an index produced by
this function. -/
theorem build_index_buckets_nonempty (schedule : ScheduleResponse) (s e : NaiveDate)
    (k : Nat) (gs : List GameListing)
    (h : (k, gs) ∈ build_upcoming_games_index schedule s e) : gs ≠ [] := by
  have hraw := bucketsNonempty_rawUpcomingIndex schedule s e
  unfold build_upcoming_games_index sortBuckets at h
  obtain ⟨⟨k2, gs2⟩, hmem, heq⟩ := List.mem_map.mp h
  have hne : gs2 ≠ [] := hraw (k2, gs2) hmem
  have hgs : gs = sortListings gs2 := by
    have := congrArg Prod.snd heq
    simpa using this.symm
  rw [hgs]
  intro hc
  apply hne
  have hlen : (sortListings gs2).length = gs2.length :=
    List.length_insertionSort dateLe gs2
  rw [hc] at hlen
  exact List.eq_nil_of_length_eq_zero hlen.symm

/-- **C10 witness.** Concrete instance: bucket 5 of the index of the
one-game schedule above is present, and the theorem yields that its
listing list is non-empty. -/
theorem build_index_buckets_nonempty_witness :
    [(⟨⟨2024, 1, 12⟩, "Boston Celtics", true⟩ : GameListing)] ≠ ([] : List GameListing) :=
  build_index_buckets_nonempty ⟨⟨[⟨[gameOneId]⟩]⟩⟩ winS winE 5
    [⟨⟨2024, 1, 12⟩, "Boston Celtics", true⟩] (by decide)

/-- **C3.** A raw ranking entry survives the `filter_map` of `run` — and
hence appears in the resolved list `resolveRankings` — exactly when its
current-week rank is present, its team id is present, and at least one of
team name, team nickname or team display name is present. -/
theorem resolveEntry_isSome_iff (entry : PowerRankingEntry) :
    (∃ r, resolveEntry entry = some r) ↔
      ((∃ k, entry.current_week_rank = some k) ∧ (∃ t, entry.team_id = some t) ∧
        ((∃ n, entry.team_name = some n) ∨ (∃ n, entry.team_nickname = some n) ∨
          (∃ n, entry.team_display_name = some n))) := by
  obtain ⟨tid, tn, tnick, tdisp, rk⟩ := entry
  cases rk <;> cases tid <;> cases tn <;> cases tnick <;> cases tdisp <;>
    simp [resolveEntry, Option.or]

/-- **C4.** For every surviving entry the resolved team name follows the
precedence team name, then team nickname, then team display name. -/
theorem resolveEntry_name_precedence (entry : PowerRankingEntry) (r : ResolvedRanking)
    (h : resolveEntry entry = some r) :
    (∀ n, entry.team_name = some n → r.team_name = n) ∧
    (entry.team_name = none → ∀ n, entry.team_nickname = some n → r.team_name = n) ∧
    (entry.team_name = none → entry.team_nickname = none →
      ∀ n, entry.team_display_name = some n → r.team_name = n) := by
  obtain ⟨tid, tn, tnick, tdisp, rk⟩ := entry
  cases rk <;> cases tid <;> cases tn <;> cases tnick <;> cases tdisp <;>
    simp_all [resolveEntry, Option.or]
  all_goals
    subst h
    rfl

/-- Ranking entry with all three name fields present. -/
def entryFull : PowerRankingEntry :=
  ⟨some 7, some "A", some "B", some "C", some 3⟩

/-- **C4 witness.** With team name "A", nickname "B" and display name "C"
present, the resolved name is "A". -/
theorem resolveEntry_name_precedence_witness :
    ∃ r, resolveEntry entryFull = some r ∧ r.team_name = "A" :=
  ⟨⟨3, 7, "A"⟩, rfl, (resolveEntry_name_precedence entryFull ⟨3, 7, "A"⟩ rfl).1 "A" rfl⟩

/-- **C5.** The resolved rankings of `run` are sorted ascending by rank,
and for every rank value the survivors carrying that rank appear in the
same relative order as in the original article entry list (the stable sort
`ranked.sort_by_key(|r| r.rank)` preserves the order of `resolveRankings`,
which is article order). -/
theorem resolved_rankings_sorted_stable (entries : List PowerRankingEntry) :
    List.Sorted rankLe (sortRanked (resolveRankings entries)) ∧
    ∀ k, (sortRanked (resolveRankings entries)).filter (fun r => r.rank == k) =
      (resolveRankings entries).filter (fun r => r.rank == k) := by
  constructor
  · exact List.sorted_insertionSort rankLe _
  · intro k
    unfold sortRanked
    apply filter_insertionSort_key
    intro a b ha hb
    have ha2 : a.rank = k := by simpa using ha
    have hb2 : b.rank = k := by simpa using hb
    unfold rankLe
    omega

/-- **C6.** For every schedule and window, every bucket of the index
returned by `build_upcoming_games_index` is sorted ascending by date, and
for every date value the listings carrying that date appear in the same
relative order as in the pre-sort bucket of `rawUpcomingIndex`, whose
order is insertion order, i.e. the source feed's game order. -/
theorem upcoming_buckets_sorted_stable (schedule : ScheduleResponse) (s e : NaiveDate)
    (k : Nat) :
    List.Sorted dateLe (bucket (build_upcoming_games_index schedule s e) k) ∧
    ∀ d, (bucket (build_upcoming_games_index schedule s e) k).filter
          (fun g => decide (g.date = d)) =
        (bucket (rawUpcomingIndex schedule s e) k).filter
          (fun g => decide (g.date = d)) := by
  have hb : bucket (build_upcoming_games_index schedule s e) k =
      sortListings (bucket (rawUpcomingIndex schedule s e) k) :=
    bucket_sortBuckets _ _
  constructor
  · rw [hb]
    exact List.sorted_insertionSort dateLe _
  · intro d
    rw [hb]
    unfold sortListings
    apply filter_insertionSort_key
    intro a b ha hb2
    have ha2 : a.date = d := of_decide_eq_true ha
    have hb3 : b.date = d := of_decide_eq_true hb2
    unfold dateLe NaiveDate.Le
    rw [ha2, hb3]
    exact NaiveDate.before_irrefl d

/-- **C7.** `format_team` yields the label city-space-name when city and
name are both present and the city is non-empty; otherwise the name alone
when a non-empty name is present; otherwise the placeholder
"TBD Opponent" (in particular when both city and name are absent or
empty). -/
theorem format_team_cases (team : ScheduleTeam) :
    (∀ city name, team.team_city = some city → team.team_name = some name →
      city ≠ "" → format_team team = city ++ " " ++ name) ∧
    (∀ name, team.team_name = some name → name ≠ "" →
      (team.team_city = none ∨ team.team_city = some "") →
      format_team team = name) ∧
    ((team.team_name = none ∨ team.team_name = some "") →
      (team.team_city = none ∨ team.team_city = some "" ∨ team.team_name = none) →
      format_team team = "TBD Opponent") := by
  obtain ⟨tid, tc, tn⟩ := team
  refine ⟨?_, ?_, ?_⟩
  · intro city name hc hn hne
    simp only at hc hn
    subst hc
    subst hn
    simp [format_team, hne]
  · intro name hn hne hcity
    simp only at hn hcity
    subst hn
    rcases hcity with hc | hc
    · subst hc
      simp [format_team, hne]
    · subst hc
      simp [format_team, hne]
  · intro hname hcity
    simp only at hname hcity
    rcases hname with hn | hn
    · subst hn
      cases tc <;> simp [format_team]
    · subst hn
      rcases hcity with hc | hc | hc
      · subst hc
        simp [format_team]
      · subst hc
        simp [format_team]
      · cases hc

/-- **C7 witness.** The three concrete instances of the specification. -/
theorem format_team_cases_witness :
    format_team ⟨some 1, some "Los Angeles", some "Lakers"⟩ = "Los Angeles Lakers" ∧
    format_team ⟨some 2, some "", some "Lakers"⟩ = "Lakers" ∧
    format_team ⟨some 3, none, none⟩ = "TBD Opponent" := by
  refine ⟨?_, ?_, ?_⟩
  · have h := (format_team_cases ⟨some 1, some "Los Angeles", some "Lakers"⟩).1
      "Los Angeles" "Lakers" rfl rfl (by decide)
    rw [h]
    rfl
  · exact (format_team_cases ⟨some 2, some "", some "Lakers"⟩).2.1
      "Lakers" rfl (by decide) (Or.inr rfl)
  · exact (format_team_cases ⟨some 3, none, none⟩).2.2
      (Or.inl rfl) (Or.inl rfl)

/-- **C8.** Embedded-JSON extraction fails with the marker-not-found error
when the `__NEXT_DATA__` marker does not occur in the body, and fails with
the end-marker-not-found error when the marker occurs (first occurrence at
`i`) but no `</script>` occurs after it; in both cases an `Except.error`
is returned, never a silently empty or default `Except.ok` result. -/
theorem extract_next_data_marker_errors (body : String) :
    ((∀ p q : List Char, body.data ≠ p ++ NEXT_DATA_MARKER ++ q) →
      extract_next_data body =
        .error (.markerNotFound "unable to locate __NEXT_DATA__ script tag")) ∧
    (∀ i, findSub NEXT_DATA_MARKER body.data = some i →
      (∀ p q : List Char,
        body.data.drop (i + NEXT_DATA_MARKER.length) ≠ p ++ SCRIPT_CLOSE ++ q) →
      extract_next_data body =
        .error (.markerNotFound "unable to locate end of __NEXT_DATA__ script tag")) := by
  constructor
  · intro hno
    have hfind : findSub NEXT_DATA_MARKER body.data = none := by
      cases hf : findSub NEXT_DATA_MARKER body.data with
      | none => rfl
      | some i =>
        obtain ⟨p, q, hpq⟩ := exists_of_findSub_eq_some _ _ _ hf
        exact absurd hpq (hno p q)
    simp [extract_next_data, hfind]
  · intro i hi hno
    have hfind : findSub SCRIPT_CLOSE (body.data.drop (i + NEXT_DATA_MARKER.length)) = none := by
      cases hf : findSub SCRIPT_CLOSE (body.data.drop (i + NEXT_DATA_MARKER.length)) with
      | none => rfl
      | some j =>
        obtain ⟨p, q, hpq⟩ := exists_of_findSub_eq_some _ _ _ hf
        exact absurd hpq (hno p q)
    simp [extract_next_data, hi, hfind]

/-- HTML body without the `__NEXT_DATA__` marker. -/
def bodyNoMarker : String := "<html></html>"

/-- HTML body that starts with the marker but has no closing tag. -/
def bodyNoClose : String :=
  "<script id=\"__NEXT_DATA__\" type=\"application/json\">json"

/-- **C8 witness.** Both error paths on concrete bodies. -/
theorem extract_next_data_marker_errors_witness :
    extract_next_data bodyNoMarker =
      .error (.markerNotFound "unable to locate __NEXT_DATA__ script tag") ∧
    extract_next_data bodyNoClose =
      .error (.markerNotFound "unable to locate end of __NEXT_DATA__ script tag") := by
  constructor
  · refine (extract_next_data_marker_errors bodyNoMarker).1 ?_
    intro p q h
    have hlen := congrArg List.length h
    rw [List.length_append, List.length_append] at hlen
    have hm : NEXT_DATA_MARKER.length = 51 := rfl
    have hbody : bodyNoMarker.data.length = 13 := rfl
    rw [hm, hbody] at hlen
    omega
  · refine (extract_next_data_marker_errors bodyNoClose).2 0 (by decide) ?_
    intro p q h
    have hlen := congrArg List.length h
    rw [List.length_append, List.length_append] at hlen
    have hm : SCRIPT_CLOSE.length = 9 := rfl
    have hbody : (bodyNoClose.data.drop (0 + NEXT_DATA_MARKER.length)).length = 4 := rfl
    rw [hm, hbody] at hlen
    omega
